import Mathlib

/-!
Shallow embedding of the recurrence-expansion core of the ms-calendar-processor
repository (src/data/parsers/calendar_parser.py), together with theorems that
settle the specification claims about it.

Conventions of the embedding:
* instants are modeled as a wall-clock value in whole seconds together with an
  optional UTC offset (`none` = a naive timestamp);
* the outcome of applying the pandas parser `to_datetime` to a raw database
  value is carried as a three-valued result (raises / NaT / timestamp) rather
  than re-implementing the pandas string grammar;
* Python exceptions are modeled with `Except`; a raised exception aborts the
  computation exactly where the source raises.
-/

namespace MSCal

instance exceptDecEq {ε α : Type _} [DecidableEq ε] [DecidableEq α] :
    DecidableEq (Except ε α) := fun a b =>
  match a, b with
  | .error e, .error f =>
    if h : e = f then .isTrue (h ▸ rfl) else .isFalse (fun hc => h (by cases hc; rfl))
  | .ok x, .ok y =>
    if h : x = y then .isTrue (h ▸ rfl) else .isFalse (fun hc => h (by cases hc; rfl))
  | .error _, .ok _ => .isFalse (fun hc => Except.noConfusion hc)
  | .ok _, .error _ => .isFalse (fun hc => Except.noConfusion hc)

/-- A raised Python exception, by kind. -/
inductive PyErr
  | valueError
  | typeError
  | attributeError
deriving DecidableEq, Repr

/-- A pandas Timestamp: wall-clock seconds together with an optional UTC offset
in seconds (`none` = timezone-naive). For an aware timestamp the absolute
instant is `wall - offset`. -/
structure DT where
  wall : Int
  tz : Option Int
deriving DecidableEq, Repr

/-- The absolute instant of a timestamp (for a naive one, its wall clock). -/
def instantOf (d : DT) : Int :=
  match d.tz with
  | some o => d.wall - o
  | none => d.wall

/-- Result of a pandas `to_datetime` call that did not raise. -/
inductive Pdt
  | nat
  | ts (d : DT)
deriving DecidableEq, Repr

/-- Outcome of applying pandas `to_datetime` to a raw field value: the call can
raise, return NaT, or return a timestamp. The raw pandas string grammar is
abstracted by carrying the outcome. -/
inductive RawInstant
  | err
  | nat
  | ok (d : DT)
deriving DecidableEq, Repr

/-- An entry of the `rrule_ex_date` list: the raw string form (used verbatim by
the identity-key builder) together with its `to_datetime` outcome (used by the
expansion). -/
structure ExDate where
  raw : String
  parsed : RawInstant
deriving DecidableEq, Repr

/-- One raw calendar-event row, with the fields the core reads. -/
structure Row where
  id : String
  email : String
  name : String
  title : Option String
  start_time : RawInstant
  end_time : RawInstant
  deleted_at : Option DT
  recurring_group_id : Option String
  rrule : Option String
  rrule_tzid : Option String
  rrule_until : Option RawInstant
  rrule_ex_date : Option (List ExDate)
deriving DecidableEq, Repr

/-! ### Python string primitives -/

/-- Whitespace characters recognized by Python `str.strip()`. -/
def isPySpace (c : Char) : Bool :=
  c = ' ' || c = '\t' || c = '\n' || c = '\r' || c = '\x0b' || c = '\x0c'

/-- Python `s.strip()`. -/
def pyStrip (s : String) : String :=
  String.mk (((s.toList.dropWhile isPySpace).reverse.dropWhile isPySpace).reverse)

/-- Python `s.strip(c)` for a single character argument. -/
def pyStripChar (c : Char) (s : String) : String :=
  String.mk (((s.toList.dropWhile (· = c)).reverse.dropWhile (· = c)).reverse)

/-- Helper of `splitOnce` over character lists. -/
def splitOnceL (sep : List Char) (acc : List Char) : List Char → Option (String × String)
  | [] => none
  | c :: cs =>
    if sep.isPrefixOf (c :: cs) then
      some (String.mk acc.reverse, String.mk ((c :: cs).drop sep.length))
    else
      splitOnceL sep (c :: acc) cs

/-- Python `s.split(sep, 1)` when the separator occurs (first occurrence),
`none` when it does not. -/
def splitOnce (sep s : String) : Option (String × String) :=
  splitOnceL sep.toList [] s.toList

/-- Helper of `pySplitPred`. -/
def splitPredAux (p : Char → Bool) (acc : List Char) : List Char → List String
  | [] => [String.mk acc.reverse]
  | c :: cs =>
    if p c then String.mk acc.reverse :: splitPredAux p [] cs
    else splitPredAux p (c :: acc) cs

/-- Split a string at every separator character satisfying `p` (keeping empty
fields, as Python single-character `str.split` does). -/
def pySplitPred (p : Char → Bool) (s : String) : List String :=
  splitPredAux p [] s.toList

/-- Python `s.split(sep)` for a one-character separator. -/
def pySplitChar (sep : Char) (s : String) : List String :=
  pySplitPred (· = sep) s

/-- Python `s.startswith(pre)`. -/
def pyStartsWith (pre s : String) : Bool :=
  pre.toList.isPrefixOf s.toList

/-- Join a list of strings with a separator. -/
def joinSep (sep : String) : List String → String
  | [] => ""
  | [a] => a
  | a :: b :: as => a ++ sep ++ joinSep sep (b :: as)

/-- Fuel-driven helper of `pyReplaceDel` (the fuel dominates the input length,
so the fuel-exhausted arm is never taken). -/
def pyReplaceDelFuel (pat : List Char) : Nat → List Char → List Char
  | 0, l => l
  | _ + 1, [] => []
  | n + 1, c :: cs =>
    if pat ≠ [] ∧ pat.isPrefixOf (c :: cs) then
      pyReplaceDelFuel pat n (cs.drop (pat.length - 1))
    else
      c :: pyReplaceDelFuel pat n cs

/-- Python `s.replace(pat, r)` for an empty replacement: delete every
occurrence of `pat`. -/
def pyReplaceDel (pat l : List Char) : List Char :=
  pyReplaceDelFuel pat l.length l

/-- Numeric value of a nonempty all-digit character list, or an error. -/
def digitsVal : List Char → Except PyErr Int
  | [] => .error .valueError
  | l =>
    if l.all (·.isDigit) then
      .ok (l.foldl (fun acc c => acc * 10 + (c.toNat - 48)) (0 : Int))
    else
      .error .valueError

/-- Python `int(s)` on a string: optional surrounding whitespace, optional
sign, decimal digits; anything else raises ValueError. (Exotic accepted forms
such as digit-group underscores are outside the model.) -/
def pyInt (s : String) : Except PyErr Int :=
  match (pyStrip s).toList with
  | '-' :: rest => (digitsVal rest).map Int.neg
  | '+' :: rest => digitsVal rest
  | l => digitsVal l

/-! ### Calendar arithmetic (proleptic Gregorian, days since 1970-01-01) -/

/-- Civil date `(year, month, day)` from a count of days since 1970-01-01. -/
def civilFromDays (z0 : Int) : Int × Int × Int :=
  let z := z0 + 719468
  let era := Int.fdiv z 146097
  let doe := z - era * 146097
  let yoe := (doe - doe / 1460 + doe / 36524 - doe / 146096) / 365
  let y := yoe + era * 400
  let doy := doe - (365 * yoe + yoe / 4 - yoe / 100)
  let mp := (5 * doy + 2) / 153
  let d := doy - (153 * mp + 2) / 5 + 1
  let m := mp + (if mp < 10 then 3 else -9)
  (y + (if m ≤ 2 then 1 else 0), m, d)

/-- Count of days since 1970-01-01 of a civil date. -/
def daysFromCivil (y0 m d : Int) : Int :=
  let y := y0 - (if m ≤ 2 then 1 else 0)
  let era := Int.fdiv y 400
  let yoe := y - era * 400
  let mp := Int.fmod (m + 9) 12
  let doy := (153 * mp + 2) / 5 + d - 1
  let doe := yoe * 365 + yoe / 4 - yoe / 100 + doy
  era * 146097 + doe - 719468

/-- Gregorian leap-year test. -/
def isLeap (y : Int) : Bool :=
  (Int.fmod y 4 = 0 && Int.fmod y 100 ≠ 0) || Int.fmod y 400 = 0

/-- Number of days of a month. -/
def daysInMonth (y m : Int) : Int :=
  if m = 2 then (if isLeap y then 29 else 28)
  else if m = 4 || m = 6 || m = 9 || m = 11 then 30
  else 31

/-- Day index (days since epoch) of an instant in seconds. -/
def dayOf (t : Int) : Int := Int.fdiv t 86400

/-- Seconds past midnight of an instant. -/
def todOf (t : Int) : Int := Int.fmod t 86400

/-- Weekday of a day index, Monday = 0 (1970-01-01 was a Thursday). -/
def weekdayOf (day : Int) : Int := Int.fmod (day + 3) 7

/-- Monday-based week index of a day index. -/
def weekIndexOf (day : Int) : Int := Int.fdiv (day + 3) 7

/-- Month index (`year * 12 + month - 1`) of a day index. -/
def monthIndexOf (day : Int) : Int :=
  let c := civilFromDays day
  c.1 * 12 + (c.2.1 - 1)

/-- Year of a day index. -/
def yearOfDay (day : Int) : Int := (civilFromDays day).1

/-! ### The recurrence descriptor parser (`parse_rrule`, lines 10-36) -/

/-- A Python dict of string keys, as an association list where an insert
overwrites any previous binding of the key. -/
abbrev Params := List (String × String)

/-- Remove every binding of a key. -/
def dictRemove (k : String) : Params → Params
  | [] => []
  | p :: ps => if p.1 = k then dictRemove k ps else p :: dictRemove k ps

/-- Dict insertion: overwrite any existing binding. -/
def dictInsert (k v : String) (d : Params) : Params :=
  dictRemove k d ++ [(k, v)]

/-- Dict lookup. -/
def dictGet : Params → String → Option String
  | [], _ => none
  | p :: ps, k => if p.1 = k then some p.2 else dictGet ps k

/-- Whether pandas `to_datetime` accepts the string carried by a DTSTART line.
Modeled for the ISO-8601 basic and extended forms that such lines carry
(`YYYYMMDD[THHMMSS[Z]]` and `YYYY-MM-DD[THH:MM:SS[Z]]`); other pandas-accepted
forms are outside the model. -/
def pdAcceptsInstant (s : String) : Bool :=
  let l := (pyStrip s).toList
  match l with
  | [a, b, c, d, e, f, g, h] => [a, b, c, d, e, f, g, h].all (·.isDigit)
  | [a, b, c, d, e, f, g, h, 'T', i, j, k, m, n, p] =>
      [a, b, c, d, e, f, g, h, i, j, k, m, n, p].all (·.isDigit)
  | [a, b, c, d, e, f, g, h, 'T', i, j, k, m, n, p, 'Z'] =>
      [a, b, c, d, e, f, g, h, i, j, k, m, n, p].all (·.isDigit)
  | [a, b, c, d, '-', e, f, '-', g, h] => [a, b, c, d, e, f, g, h].all (·.isDigit)
  | [a, b, c, d, '-', e, f, '-', g, h, 'T', i, j, ':', k, m, ':', n, p] =>
      [a, b, c, d, e, f, g, h, i, j, k, m, n, p].all (·.isDigit)
  | [a, b, c, d, '-', e, f, '-', g, h, 'T', i, j, ':', k, m, ':', n, p, 'Z'] =>
      [a, b, c, d, e, f, g, h, i, j, k, m, n, p].all (·.isDigit)
  | _ => false

/-- One step of the key=value loop of `parse_rrule` (lines 26-32): a part
holding a colon is split at the first colon, otherwise it is split at the
first equals sign; a part with neither raises ValueError (the tuple unpacking
of a one-element split fails). -/
def parsePart (acc : Params) (part : String) : Except PyErr Params :=
  if part.toList.contains ':' then
    match splitOnce ":" part with
    | some (k, v) => .ok (dictInsert k v acc)
    | none => .error .valueError
  else
    match splitOnce "=" part with
    | some (k, v) => .ok (dictInsert k v acc)
    | none => .error .valueError

/-- The `parse_rrule` function (lines 10-36). `none` input models Python
`None`. Falsy input yields no descriptor; a `DTSTART:` prefix is split off at
the first `"\nRRULE:"` (a missing separator or an unparseable embedded instant
raises, as the tuple unpacking or the pandas call would); the remainder is
parsed as `;`-delimited parts. The embedded DTSTART instant is stored in the
mapping under the key `DTSTART` (its raw string stands in for the parsed
timestamp, whose value is never read by any consumer). This is the body run
on the stripped string. -/
def parseRruleTail (s1 : String) : Except PyErr (Option Params) :=
  (if pyStartsWith "DTSTART:" s1 then
     match splitOnce "\nRRULE:" s1 with
     | none => .error .valueError
     | some pr =>
       if pdAcceptsInstant (String.mk (pyReplaceDel "DTSTART:".toList pr.1.toList)) then
         .ok (some (String.mk (pyReplaceDel "DTSTART:".toList pr.1.toList)), pr.2)
       else .error .valueError
   else .ok (none, s1)) >>= fun pr =>
  ((pySplitChar ';' pr.2).foldlM parsePart ([] : Params)).map (fun params =>
    match pr.1 with
    | some dd => some (dictInsert "DTSTART" dd params)
    | none => some params)

def parseRrule (rruleStr : Option String) : Except PyErr (Option Params) :=
  match rruleStr with
  | none => .ok none
  | some s0 =>
    if s0 = "" then .ok none
    else parseRruleTail (pyStripChar '"' (pyStrip s0))

/-! ### Frequencies, weekdays, candidate generation -/

/-- Frequency constants of the recurrence library. -/
inductive Freq
  | yearly | monthly | weekly | daily | hourly | minutely | secondly
deriving DecidableEq, Repr

/-- The `freq_map.get(freq, rrule.WEEKLY)` lookup composed with the
`rrule_params.get('FREQ', 'WEEKLY')` default (lines 53 and 59-67, 105):
a missing or unrecognized FREQ value falls back to WEEKLY. -/
def parseFreq : Option String → Freq
  | some "YEARLY" => .yearly
  | some "MONTHLY" => .monthly
  | some "WEEKLY" => .weekly
  | some "DAILY" => .daily
  | some "HOURLY" => .hourly
  | some "MINUTELY" => .minutely
  | some "SECONDLY" => .secondly
  | _ => .weekly

/-- One BYDAY token (line 72): the first two characters, upper-cased, must name
a weekday constant of the library; otherwise the attribute lookup raises. -/
def parseWeekdayTok (s : String) : Except PyErr Int :=
  match (s.toList.take 2).map Char.toUpper with
  | ['M', 'O'] => .ok 0
  | ['T', 'U'] => .ok 1
  | ['W', 'E'] => .ok 2
  | ['T', 'H'] => .ok 3
  | ['F', 'R'] => .ok 4
  | ['S', 'A'] => .ok 5
  | ['S', 'U'] => .ok 6
  | _ => .error .attributeError

/-- Occurrences of a fixed-step rule: `dtstart + k * step` for `k ≥ 0`,
bounded by `untilW`. -/
def fixedStepGen (dtstart step untilW : Int) : List Int :=
  if step ≤ 0 then []
  else
    (((List.range (Int.fdiv (untilW - dtstart) step + 1).toNat).map
        (fun (k : Nat) => dtstart + (k : Int) * step)).filter (fun t => decide (t ≤ untilW)))

/-- Day-scan generation: every day from the anchor day forward that `keep`
accepts, at the anchor's time of day, bounded below by the anchor and above by
`untilW`. -/
def dayScanGen (dtstart untilW : Int) (keep : Int → Bool) : List Int :=
  let d0 := dayOf dtstart
  ((((List.range (dayOf untilW - d0 + 1).toNat).map (fun (j : Nat) => d0 + (j : Int))).filter
      keep).map (fun d => d * 86400 + todOf dtstart)).filter
    (fun t => decide (dtstart ≤ t ∧ t ≤ untilW))

/-- Month-scan generation for a MONTHLY rule without BYDAY: the anchor's
day-of-month in every `interval`-th month, skipping months where that day does
not exist, bounded by `untilW`. -/
def monthScanGen (dtstart untilW interval : Int) : List Int :=
  let d0 := dayOf dtstart
  let c := civilFromDays d0
  let dom := c.2.2
  let mi0 := c.1 * 12 + (c.2.1 - 1)
  let steps := (Int.fdiv (dayOf untilW - d0 + 1) 28 + 3).toNat
  (((List.range steps).map (fun (k : Nat) => mi0 + (k : Int) * interval)).filterMap
      (fun mi =>
        let y := Int.fdiv mi 12
        let m := Int.fmod mi 12 + 1
        if dom ≤ daysInMonth y m then
          some (daysFromCivil y m dom * 86400 + todOf dtstart)
        else none)).filter (fun t => decide (dtstart ≤ t ∧ t ≤ untilW))

/-- Year-scan generation for a YEARLY rule without BYDAY: the anchor's month
and day in every `interval`-th year, skipping years where that day does not
exist, bounded by `untilW`. -/
def yearScanGen (dtstart untilW interval : Int) : List Int :=
  let d0 := dayOf dtstart
  let c := civilFromDays d0
  let steps := (Int.fdiv (dayOf untilW - d0 + 1) 365 + 3).toNat
  (((List.range steps).map (fun (k : Nat) => c.1 + (k : Int) * interval)).filterMap
      (fun y =>
        if c.2.2 ≤ daysInMonth y c.2.1 then
          some (daysFromCivil y c.2.1 c.2.2 * 86400 + todOf dtstart)
        else none)).filter (fun t => decide (dtstart ≤ t ∧ t ≤ untilW))

/-- Candidate instants of `rrule.rrule(freq, interval, dtstart, until[,
byweekday])`, in the library's semantics for the configurations the program
can build: without `byweekday` the rule steps from the anchor; with it, weekly
and coarser frequencies emit every listed weekday of each selected period at
the anchor's time of day, and finer frequencies filter the fixed-step stream
by weekday. All results lie between the anchor and `untilW` inclusive. -/
def genCandidates (freq : Freq) (interval : Int) (byd : Option (List Int))
    (dtstart untilW : Int) : List Int :=
  match byd with
  | none =>
    match freq with
    | .yearly => yearScanGen dtstart untilW interval
    | .monthly => monthScanGen dtstart untilW interval
    | .weekly => fixedStepGen dtstart (interval * 604800) untilW
    | .daily => fixedStepGen dtstart (interval * 86400) untilW
    | .hourly => fixedStepGen dtstart (interval * 3600) untilW
    | .minutely => fixedStepGen dtstart (interval * 60) untilW
    | .secondly => fixedStepGen dtstart (interval * 1) untilW
  | some bs =>
    match freq with
    | .yearly =>
      dayScanGen dtstart untilW (fun d =>
        bs.contains (weekdayOf d) &&
          Int.fmod (yearOfDay d - yearOfDay (dayOf dtstart)) interval == 0)
    | .monthly =>
      dayScanGen dtstart untilW (fun d =>
        bs.contains (weekdayOf d) &&
          Int.fmod (monthIndexOf d - monthIndexOf (dayOf dtstart)) interval == 0)
    | .weekly =>
      dayScanGen dtstart untilW (fun d =>
        bs.contains (weekdayOf d) &&
          Int.fmod (weekIndexOf d - weekIndexOf (dayOf dtstart)) interval == 0)
    | .daily =>
      dayScanGen dtstart untilW (fun d =>
        bs.contains (weekdayOf d) &&
          Int.fmod (d - dayOf dtstart) interval == 0)
    | .hourly =>
      (fixedStepGen dtstart (interval * 3600) untilW).filter
        (fun t => bs.contains (weekdayOf (dayOf t)))
    | .minutely =>
      (fixedStepGen dtstart (interval * 60) untilW).filter
        (fun t => bs.contains (weekdayOf (dayOf t)))
    | .secondly =>
      (fixedStepGen dtstart (interval * 1) untilW).filter
        (fun t => bs.contains (weekdayOf (dayOf t)))

/-! ### The occurrence enumerator (`expand_recurring_event`, lines 38-151) -/

/-- A search window, in days, provably wide enough to contain the first `n`
occurrences of a rule from its anchor (used to realize the unbounded
`count`-only invocations of the library by a bounded scan). -/
def nthWindowDays (freq : Freq) (interval n : Int) : Int :=
  let i := max interval 1
  let k := max n 1
  match freq with
  | .secondly | .minutely | .hourly | .daily => k * i + 8
  | .weekly => (k + 1) * i * 7 + 8
  | .monthly => (k + 1) * i * 31 * 9 + 40
  | .yearly => (k + 1) * i * 366 * 9 + 400

/-- The `rrule.rrule(freq, interval, dtstart, count=n)` call of lines 118-123:
the first `n` occurrences of the rule, computed WITHOUT the weekday
restriction (the call passes no `byweekday`). -/
def firstNOccurrencesNoByday (freq : Freq) (interval dtstart n : Int) : List Int :=
  (genCandidates freq interval none dtstart
      (dtstart + nthWindowDays freq interval n * 86400)).take n.toNat

/-- The default global horizon `pd.to_datetime('2025-05-31T23:59:59Z')` of
line 76: an aware UTC timestamp. -/
def DEFAULT_UNTIL : DT :=
  ⟨daysFromCivil 2025 5 31 * 86400 + 23 * 3600 + 59 * 60 + 59, some 0⟩

/-- Lines 76-86: resolve the explicit `rrule_until` field. A falsy field, a
field whose parse raises, and a field that parses to NaT all fall back to the
default horizon; a field that parses to a valid instant is used as-is. -/
def resolveUntilField : Option RawInstant → DT
  | some (.ok d) => d
  | _ => DEFAULT_UNTIL

/-- Lines 88-101: timezone normalization before enumeration. An aware anchor
is converted to UTC and the until instant is converted (or, if naive,
localized) to UTC; for a naive anchor any timezone is stripped from the until
instant. -/
def normalizeTZ (s u : DT) : DT × DT :=
  match s.tz with
  | some o =>
    (⟨s.wall - o, some 0⟩,
      match u.tz with
      | none => ⟨u.wall, some 0⟩
      | some o2 => ⟨u.wall - o2, some 0⟩)
  | none =>
    (s,
      match u.tz with
      | some _ => ⟨u.wall, none⟩
      | none => u)

/-- Pandas subtraction of two timestamps, in seconds: both naive or both aware
subtract; a mixed-awareness subtraction raises TypeError. -/
def pdSub (a b : DT) : Except PyErr Int :=
  match a.tz, b.tz with
  | none, none => .ok (a.wall - b.wall)
  | some oa, some ob => .ok ((a.wall - oa) - (b.wall - ob))
  | _, _ => .error .typeError

/-- Python list slicing `l[:n]` for an integer bound (a negative bound drops
elements from the end). -/
def pySliceTo (n : Int) (l : List α) : List α :=
  if 0 ≤ n then l.take n.toNat else l.take (l.length - (-n).toNat)

/-- Lines 48-49 applied to a start/end field: a value whose parse raises
propagates the error; a NaT value poisons the subsequent recurrence call,
which raises — modeled as an error at this point. -/
def pdToDatetimeStrict : RawInstant → Except PyErr DT
  | .err => .error .valueError
  | .nat => .error .typeError
  | .ok d => .ok d

/-- Line 139 applied to one exclusion entry: a value whose parse raises
propagates; NaT yields a value that matches no calendar day; a timestamp
contributes its calendar date (`.date()`), that is, its wall-clock day. -/
def exDateDay : RawInstant → Except PyErr (Option Int)
  | .err => .error .valueError
  | .nat => .ok none
  | .ok d => .ok (some (dayOf d.wall))

/-- Line 116-127: the until bound actually passed to the generation call. When
COUNT is present, the instant at which the count would end — computed from the
frequency/interval rule alone, with no weekday restriction — caps the until
instant from above. -/
def resolveTermination (freq : Freq) (interval startW untilW : Int)
    (count : Option Int) : Int :=
  match count with
  | none => untilW
  | some n =>
    match (firstNOccurrencesNoByday freq interval startW n).getLast? with
    | some countEnd => min countEnd untilW
    | none => untilW

/-- The data `expand_recurring_event` has in hand once lines 43-127 ran
without raising: the recurrence configuration, the normalized anchor wall
clock and timezone, the normalized until wall clock, the parsed COUNT, the
anchor duration, and the exclusion days. -/
structure ExpCtx where
  freq : Freq
  interval : Int
  byday : Option (List Int)
  startW : Int
  tz : Option Int
  untilW : Int
  count : Option Int
  duration : Int
  exDays : List (Option Int)
deriving DecidableEq, Repr

/-- Line 54: parse INTERVAL (default 1; a present value must parse as an
integer or the conversion raises). -/
def rowInterval (params : Params) : Except PyErr Int :=
  match dictGet params "INTERVAL" with
  | none => .ok 1
  | some s => pyInt s

/-- Lines 55 and 70-72: parse BYDAY when present and truthy; each token must
name a weekday constant or the attribute lookup raises. -/
def rowByday (params : Params) : Except PyErr (Option (List Int)) :=
  match dictGet params "BYDAY" with
  | none => .ok none
  | some s =>
    if s = "" then .ok none
    else ((pySplitChar ',' s).mapM parseWeekdayTok).map some

/-- Lines 56, 116 and 122: the COUNT string, when present and truthy, parsed
as an integer; a negative COUNT makes the count-only generation of line 118
unbounded — the divergence is modeled as an error. -/
def rowCount (params : Params) : Except PyErr (Option Int) :=
  match dictGet params "COUNT" with
  | none => .ok none
  | some s =>
    if s = "" then .ok none
    else
      pyInt s >>= fun n =>
      if n < 0 then .error .valueError else .ok (some n)

/-- Lines 136-139: the exclusion entries converted to calendar days. -/
def rowExDays (x : Option (List ExDate)) : Except PyErr (List (Option Int)) :=
  match x with
  | none => .ok []
  | some l => l.mapM (fun e => exDateDay e.parsed)

/-- Lines 40-139 of `expand_recurring_event`: parse the descriptor and compute
the expansion context, or `none` when the row takes a single-occurrence path
(falsy rrule or empty descriptor), or a raised exception. A non-positive
INTERVAL drives the generation loop of the library into divergence; the
divergence is modeled as an error. `expandCtxBody` is the part of the
computation that runs after a successful descriptor parse. -/
def expandCtxBody (row : Row) (params : Params) : Except PyErr (Option ExpCtx) :=
  pdToDatetimeStrict row.start_time >>= fun eventStart0 =>
  pdToDatetimeStrict row.end_time >>= fun endTime =>
  pdSub endTime eventStart0 >>= fun duration =>
  rowInterval params >>= fun interval =>
  rowByday params >>= fun byday =>
  rowCount params >>= fun count =>
  (if interval ≤ 0 then .error .valueError else .ok ()) >>= fun _ =>
  rowExDays row.rrule_ex_date >>= fun exDays =>
  .ok (some
    { freq := parseFreq (dictGet params "FREQ"), interval := interval,
      byday := byday,
      startW := (normalizeTZ eventStart0 (resolveUntilField row.rrule_until)).1.wall,
      tz := (normalizeTZ eventStart0 (resolveUntilField row.rrule_until)).1.tz,
      untilW := (normalizeTZ eventStart0 (resolveUntilField row.rrule_until)).2.wall,
      count := count, duration := duration, exDays := exDays })

def expandCtx (row : Row) : Except PyErr (Option ExpCtx) :=
  match row.rrule with
  | none => .ok none
  | some rs =>
    if rs = "" then .ok none
    else
      parseRrule row.rrule >>= fun someParams =>
      match someParams with
      | none => .ok none
      | some params => expandCtxBody row params

/-- One element of the expansion result: either the untouched input row (the
single-occurrence paths return the row itself) or an expanded occurrence — a
copy of the row with its start/end replaced by the occurrence instants. -/
inductive OccOut
  | raw (r : Row)
  | occ (r : Row) (start_time end_time : DT)
deriving DecidableEq, Repr

/-- Lines 104-133: generate candidates up to the resolved termination bound
and hard-truncate to COUNT when present (`dates = dates[:int(count)]`). -/
def truncCandidates (c : ExpCtx) : List Int :=
  match c.count with
  | some n =>
    pySliceTo n (genCandidates c.freq c.interval c.byday c.startW
      (resolveTermination c.freq c.interval c.startW c.untilW c.count))
  | none =>
    genCandidates c.freq c.interval c.byday c.startW
      (resolveTermination c.freq c.interval c.startW c.untilW c.count)

/-- Lines 104-151 of `expand_recurring_event`: generate candidates up to the
resolved termination bound, hard-truncate to COUNT when present, drop
candidates whose calendar date is excluded, and emit each survivor with the
anchor's duration and normalized timezone. -/
def expandFromCtx (row : Row) (c : ExpCtx) : List OccOut :=
  (truncCandidates c).filterMap (fun t =>
    if c.exDays.contains (some (dayOf t)) then none
    else some (.occ row ⟨t, c.tz⟩ ⟨t + c.duration, c.tz⟩))

/-- The `expand_recurring_event` function (lines 38-151). -/
def expandRecurringEvent (row : Row) : Except PyErr (List OccOut) := do
  match ← expandCtx row with
  | none => return [.raw row]
  | some c => return expandFromCtx row c

/-! ### The event normalizer (`process_calendar_events`, lines 277-324) -/

/-- Coalesce an empty string to `none` (lines 296-301: `None` and empty
strings or lists become `None`). -/
def cleanStr : Option String → Option String
  | some "" => none
  | x => x

/-- Coalesce an empty list to `none`. -/
def cleanList : Option (List ExDate) → Option (List ExDate)
  | some [] => none
  | x => x

/-- The value-coalescing of lines 296-301 on the optional fields of a row (the
claim-relevant observables; the mandatory string fields are carried as-is). -/
def cleanRow (r : Row) : Row :=
  { r with
    title := cleanStr r.title
    recurring_group_id := cleanStr r.recurring_group_id
    rrule := cleanStr r.rrule
    rrule_tzid := cleanStr r.rrule_tzid
    rrule_ex_date := cleanList r.rrule_ex_date }

/-- The coalescing applied to one expansion result. -/
def cleanOcc : OccOut → OccOut
  | .raw r => .raw (cleanRow r)
  | .occ r s e => .occ (cleanRow r) s e

/-- Insertion into a sorted string list. -/
def insertSorted (s : String) : List String → List String
  | [] => [s]
  | t :: ts => if s ≤ t then s :: t :: ts else t :: insertSorted s ts

/-- Sort a list of strings (code-point lexicographic, as Python compares
strings). -/
def sortStrings (l : List String) : List String := l.foldr insertSorted []

/-- The sorted distinct group keys that `groupby('recurring_group_id')`
iterates over. -/
def groupKeys (rows : List Row) : List String :=
  (sortStrings (rows.filterMap (fun r => r.recurring_group_id))).dedup

/-- One finalized occurrence record of the output frame: the carried row
data, the converted start/end columns, and the computed `duration_hours`
column (`none` models the NaN produced by a NaT operand). -/
structure FinalOcc where
  base : Row
  start_time : Pdt
  end_time : Pdt
  duration_hours : Option ℚ
deriving DecidableEq, Repr

/-- Pandas `to_datetime` applied to an already-held value of the start/end
column (line 318-319): a raw value that fails to parse raises; NaT is kept. -/
def pdToDatetimeCol : RawInstant → Except PyErr Pdt
  | .err => .error .valueError
  | .nat => .ok .nat
  | .ok d => .ok (.ts d)

/-- Lines 314-322 applied to one collected event: convert the start/end values
and compute `duration_hours = (end - start).total_seconds() / 3600`. -/
def finalizeOcc : OccOut → Except PyErr FinalOcc
  | .occ r s e => do
    let d ← pdSub e s
    return { base := r, start_time := .ts s, end_time := .ts e,
             duration_hours := some ((d : ℚ) / 3600) }
  | .raw r => do
    let s ← pdToDatetimeCol r.start_time
    let e ← pdToDatetimeCol r.end_time
    match s, e with
    | .ts sd, .ts ed => do
      let d ← pdSub ed sd
      return { base := r, start_time := s, end_time := e,
               duration_hours := some ((d : ℚ) / 3600) }
    | _, _ =>
      return { base := r, start_time := s, end_time := e,
               duration_hours := none }

/-- Line 283: drop logically deleted rows. -/
def liveRows (rows : List Row) : List Row :=
  rows.filter (fun r => r.deleted_at.isNone)

/-- Line 286: the rows carrying a recurrence-group id. -/
def recurringRows (rows : List Row) : List Row :=
  (liveRows rows).filter (fun r => r.recurring_group_id.isSome)

/-- Line 287: the rows with no recurrence-group id. -/
def singleRows (rows : List Row) : List Row :=
  (liveRows rows).filter (fun r => r.recurring_group_id.isNone)

/-- Lines 292-302: expand one row of a group and append the cleaned results;
the expansion call has no exception handler around it. -/
def expandGroupStep (acc : List OccOut) (row : Row) : Except PyErr (List OccOut) :=
  expandRecurringEvent row >>= fun ex => .ok (acc ++ ex.map cleanOcc)

/-- Line 291: process the rows of one group, in input order. -/
def expandGroupsStep (recurring : List Row) (acc : List OccOut) (gid : String) :
    Except PyErr (List OccOut) :=
  (recurring.filter (fun r => r.recurring_group_id = some gid)).foldlM
    expandGroupStep acc

/-- The `process_calendar_events` pipeline (lines 277-324), abstracted over
the row batch (the database read is a collaborator). Deleted rows are dropped;
rows with a recurrence-group id are expanded group by group (groups in sorted
key order, rows of a group in input order) with no exception handling around
the expansion; single rows pass through; the frame conversion then computes
the duration column. -/
def processCalendarEvents (rows : List Row) : Except PyErr (List FinalOcc) :=
  ((groupKeys (recurringRows rows)).foldlM
      (expandGroupsStep (recurringRows rows)) ([] : List OccOut)) >>= fun expanded =>
  (expanded ++ (singleRows rows).map (fun r => OccOut.raw (cleanRow r))).mapM
    finalizeOcc

/-! ### The identity key builder (`get_event_key`, lines 184-275) -/

/-- Python `str.split()` with no argument: split on whitespace runs, dropping
empty fields. -/
def pySplitWs (s : String) : List String :=
  (pySplitPred isPySpace s).filter (fun t => t ≠ "")

/-- The `normalize_title` function (lines 184-188): a falsy title becomes the
placeholder; otherwise whitespace runs collapse to single spaces. -/
def normalizeTitle : Option String → String
  | none => "Untitled Event"
  | some "" => "Untitled Event"
  | some s => joinSep " " (pySplitWs s)

/-- The `extract_series_and_topic` function (lines 190-196): normalize, then
split at the first occurrence of the separator token. -/
def extractSeriesAndTopic (title : Option String) : String × String :=
  let t := normalizeTitle title
  match splitOnce " - " t with
  | some (a, b) => (a, b)
  | none => (t, "")

/-- Zero-padded two-digit rendering of a value in 0..99. -/
def twoDigits (n : Int) : String :=
  (if n < 10 then "0" else "") ++ toString n

/-- The `get_time_slot_key` function (lines 198-201): the timestamp's own
hour and minute (no timezone conversion), zero-padded. -/
def getTimeSlotKey (d : DT) : String :=
  twoDigits (Int.fdiv (todOf d.wall) 3600) ++ ":" ++
    twoDigits (Int.fmod (Int.fdiv (todOf d.wall) 60) 60)

/-- Zero-padded four-digit year rendering. -/
def fourDigits (y : Int) : String :=
  (if y < 10 then "000" else if y < 100 then "00" else if y < 1000 then "0" else "")
    ++ toString y

/-- The `strftime('%Y-%m-%d')` rendering of a timestamp's date. -/
def dateString (d : DT) : String :=
  let c := civilFromDays (dayOf d.wall)
  fourDigits c.1 ++ "-" ++ twoDigits c.2.1 ++ "-" ++ twoDigits c.2.2

/-- A single-quote character (codepoint 39), as Python `repr` wraps strings. -/
def sq : String := String.singleton (Char.ofNat 39)

/-- Python `str(list_of_strings)`: bracketed, comma-separated, each element in
its `repr` (modeled for strings without quote or escape characters, as
calendar date strings are). -/
def pyStrList (l : List String) : String :=
  "[" ++ joinSep ", " (l.map (fun s => sq ++ s ++ sq)) ++ "]"

/-- Python `str(value)` of the raw rrule field (line 271): `None` renders as
the four-letter word, a string renders as itself. -/
def pyStrOpt : Option String → String
  | none => "None"
  | some s => s

/-- Lines 248-250: a falsy title is replaced by the placeholder before the
series/topic split. -/
def pyTitleFix : Option String → Option String
  | none => some "Untitled Event"
  | some "" => some "Untitled Event"
  | t => t

/-- Lines 258-272: the rendering of the exclusion-date component — the sorted
raw date strings in Python list syntax, or empty for a falsy field. -/
def exListStr : Option (List ExDate) → String
  | none => ""
  | some [] => ""
  | some l => pyStrList (sortStrings (l.map (fun e => e.raw)))

/-- The `get_event_key` function (lines 238-275): series and topic from the
title (a falsy title first replaced by the placeholder), the zero-padded
time slot, the occurrence date, the raw rrule value, and the sorted
exclusion-date list, joined by the bar delimiter with falsy components
omitted. The start field must parse (the pandas call of line 253 raises
otherwise). -/
def getEventKey (row : Row) : Except PyErr String := do
  let st ← pdToDatetimeStrict row.start_time
  let p := extractSeriesAndTopic (pyTitleFix row.title)
  let keyParts := [p.1, p.2, getTimeSlotKey st, dateString st,
    pyStrOpt row.rrule, exListStr row.rrule_ex_date]
  return joinSep "|" (keyParts.filter (fun s => s ≠ ""))

/-! ### General lemmas about the embedding -/

theorem exceptBind_ok {α β : Type _} {x : Except PyErr α} {f : α → Except PyErr β}
    {b : β} (h : (x >>= f) = .ok b) : ∃ a, x = .ok a ∧ f a = .ok b := by
  cases x with
  | error e => simp [Bind.bind, Except.bind] at h
  | ok a => exact ⟨a, rfl, h⟩

theorem mem_fixedStepGen {s step u t : Int} (h : t ∈ fixedStepGen s step u) :
    s ≤ t ∧ t ≤ u := by
  unfold fixedStepGen at h
  split at h
  · simp at h
  · rename_i hstep
    obtain ⟨hm, hle⟩ := List.mem_filter.mp h
    obtain ⟨k, _, hk⟩ := List.mem_map.mp hm
    refine ⟨?_, by simpa using hle⟩
    have h1 : (0 : Int) ≤ (k : Int) := Int.natCast_nonneg k
    have h2 : (0 : Int) ≤ step := by omega
    have hk0 : (0 : Int) ≤ (k : Int) * step := mul_nonneg h1 h2
    omega

theorem mem_dayScanGen {s u t : Int} {keep : Int → Bool}
    (h : t ∈ dayScanGen s u keep) : s ≤ t ∧ t ≤ u := by
  unfold dayScanGen at h
  obtain ⟨_, hle⟩ := List.mem_filter.mp h
  simp at hle
  exact hle

theorem mem_monthScanGen {s u iv t : Int} (h : t ∈ monthScanGen s u iv) :
    s ≤ t ∧ t ≤ u := by
  unfold monthScanGen at h
  obtain ⟨_, hle⟩ := List.mem_filter.mp h
  simpa using hle

theorem mem_yearScanGen {s u iv t : Int} (h : t ∈ yearScanGen s u iv) :
    s ≤ t ∧ t ≤ u := by
  unfold yearScanGen at h
  obtain ⟨_, hle⟩ := List.mem_filter.mp h
  simpa using hle

/-- Every candidate the generator emits lies between the anchor and the until
bound, inclusive. -/
theorem mem_genCandidates {freq : Freq} {iv : Int} {byd : Option (List Int)}
    {s u t : Int} (h : t ∈ genCandidates freq iv byd s u) : s ≤ t ∧ t ≤ u := by
  unfold genCandidates at h
  cases byd with
  | none =>
    cases freq <;>
      first
        | exact mem_yearScanGen h
        | exact mem_monthScanGen h
        | exact mem_fixedStepGen h
  | some bs =>
    cases freq <;>
      first
        | exact mem_dayScanGen h
        | exact mem_fixedStepGen (List.mem_filter.mp h).1

/-- With an until bound strictly before the anchor the generator is empty. -/
theorem genCandidates_eq_nil {freq : Freq} {iv : Int} {byd : Option (List Int)}
    {s u : Int} (h : u < s) : genCandidates freq iv byd s u = [] := by
  rw [List.eq_nil_iff_forall_not_mem]
  intro t ht
  have := mem_genCandidates ht
  omega

theorem pySliceTo_subset {α : Type _} (n : Int) (l : List α) : pySliceTo n l ⊆ l := by
  unfold pySliceTo
  split <;> exact List.take_subset _ _

theorem pySliceTo_length_le {α : Type _} {n : Int} (hn : 0 ≤ n) (l : List α) :
    (pySliceTo n l).length ≤ n.toNat := by
  unfold pySliceTo
  rw [if_pos hn]
  simp

theorem filterMap_ite_eq_filter_map {α β : Type _} {p : α → Bool} {f : α → β}
    (l : List α) :
    (l.filterMap fun t => if p t then none else some (f t)) =
      (l.filter fun t => !p t).map f := by
  induction l with
  | nil => rfl
  | cons a l ih =>
    by_cases h : p a <;>
      simp [List.filterMap_cons, List.filter_cons, h, ih]

theorem mem_insertSorted {a s : String} {l : List String} :
    a ∈ insertSorted s l ↔ a = s ∨ a ∈ l := by
  induction l with
  | nil => simp [insertSorted]
  | cons t ts ih =>
    unfold insertSorted
    split
    · simp [ih]
    · simp [ih]
      tauto

theorem mem_sortStrings {a : String} {l : List String} :
    a ∈ sortStrings l ↔ a ∈ l := by
  induction l with
  | nil => simp [sortStrings]
  | cons t ts ih =>
    unfold sortStrings at ih ⊢
    simp [List.foldr_cons, mem_insertSorted, ih]

theorem mem_groupKeys {rows : List Row} {r : Row} {g : String}
    (hr : r ∈ rows) (hg : r.recurring_group_id = some g) : g ∈ groupKeys rows := by
  unfold groupKeys
  rw [List.mem_dedup, mem_sortStrings]
  exact List.mem_filterMap.mpr ⟨r, hr, by rw [hg]⟩

theorem mem_of_mapM_ok {α β : Type _} {f : α → Except PyErr β} :
    ∀ {xs : List α} {ys : List β}, xs.mapM f = .ok ys →
      ∀ y ∈ ys, ∃ x ∈ xs, f x = .ok y := by
  intro xs
  induction xs with
  | nil =>
    intro ys h y hy
    simp only [List.mapM_nil] at h
    cases h
    simp at hy
  | cons x xs ih =>
    intro ys h y hy
    simp only [List.mapM_cons] at h
    obtain ⟨b, hb, h2⟩ := exceptBind_ok h
    obtain ⟨bs, hbs, h3⟩ := exceptBind_ok h2
    cases h3
    rcases List.mem_cons.mp hy with hy | hy
    · exact ⟨x, List.mem_cons_self _ _, hy ▸ hb⟩
    · obtain ⟨x2, hx2, hfx2⟩ := ih hbs y hy
      exact ⟨x2, List.mem_cons_of_mem _ hx2, hfx2⟩

/-- The resolved termination bound never exceeds the until instant. -/
theorem resolveTermination_le (freq : Freq) (iv s u : Int) (cnt : Option Int) :
    resolveTermination freq iv s u cnt ≤ u := by
  unfold resolveTermination
  split
  · exact le_refl u
  · split
    · exact min_le_right _ _
    · exact le_refl u

/-- Every truncated candidate lies between the anchor and the resolved
termination bound, inclusive. -/
theorem mem_truncCandidates {c : ExpCtx} {t : Int} (h : t ∈ truncCandidates c) :
    c.startW ≤ t ∧ t ≤ resolveTermination c.freq c.interval c.startW c.untilW c.count := by
  unfold truncCandidates at h
  rcases hc : c.count with _ | n <;> rw [hc] at h
  · exact mem_genCandidates h
  · exact mem_genCandidates (pySliceTo_subset n _ h)

/-! ### Concrete rows used by the witnesses and counterexamples -/

/-- A concrete baseline recurring row: weekly series of three one-hour
sessions anchored Monday 2025-01-06 09:00 UTC. -/
def baseRow : Row :=
  { id := "evt-1", email := "alice@example.com", name := "Alice",
    title := some "Proficient Python - Nested Structures",
    start_time := .ok ⟨daysFromCivil 2025 1 6 * 86400 + 9 * 3600, some 0⟩,
    end_time := .ok ⟨daysFromCivil 2025 1 6 * 86400 + 10 * 3600, some 0⟩,
    deleted_at := none, recurring_group_id := some "grp-1",
    rrule := some "FREQ=WEEKLY;INTERVAL=1;COUNT=3", rrule_tzid := none,
    rrule_until := none, rrule_ex_date := none }

/-! ### Claim C8 -/

/-- C8: a row whose `rrule` is null or the empty string (the falsy values, on
which the descriptor parser reports no recurrence) expands to exactly one
occurrence — the row itself, its start and end untouched. -/
theorem c8_null_rrule_single_occurrence (row : Row)
    (h : row.rrule = none ∨ row.rrule = some "") :
    expandRecurringEvent row = .ok [.raw row] := by
  unfold expandRecurringEvent expandCtx
  rcases h with h | h <;> rw [h] <;> rfl

/-- Witness row for C8: the baseline row with a null rrule. -/
def c8row : Row := { baseRow with rrule := none, recurring_group_id := none }

theorem c8_null_rrule_single_occurrence_witness :
    expandRecurringEvent c8row = .ok [.raw c8row] :=
  c8_null_rrule_single_occurrence c8row (Or.inl rfl)

/-! ### Claim C5 -/

/-- C5: before candidate generation, an anchor carrying a timezone is
converted to UTC together with the resolved termination instant (instants
preserved; a naive until is localized, keeping its wall clock as the UTC
instant); a naive anchor has any timezone stripped from the termination
instant; and in every case the two normalized values share one awareness
mode, so enumeration never compares an aware instant with a naive one. -/
theorem c5_timezone_normalization (s u : DT) :
    (((normalizeTZ s u).1.tz.isSome ↔ s.tz.isSome) ∧
      ((normalizeTZ s u).2.tz.isSome ↔ s.tz.isSome)) ∧
    (s.tz.isSome →
      (normalizeTZ s u).1 = ⟨instantOf s, some 0⟩ ∧
        (normalizeTZ s u).2 = ⟨instantOf u, some 0⟩) ∧
    (s.tz = none →
      (normalizeTZ s u).1 = s ∧ (normalizeTZ s u).2 = ⟨u.wall, none⟩) := by
  obtain ⟨sw, stz⟩ := s
  obtain ⟨uw, utz⟩ := u
  cases stz <;> cases utz <;> simp [normalizeTZ, instantOf]

theorem c5_timezone_normalization_witness :
    (normalizeTZ ⟨7200, some 3600⟩ ⟨500, none⟩).1 =
        ⟨instantOf ⟨7200, some 3600⟩, some 0⟩ ∧
      (normalizeTZ ⟨7200, some 3600⟩ ⟨500, none⟩).2 =
        ⟨instantOf ⟨500, none⟩, some 0⟩ :=
  (c5_timezone_normalization ⟨7200, some 3600⟩ ⟨500, none⟩).2.1 (by decide)

/-! ### Claim C4 -/

/-- A concrete row whose explicit until (2025-01-01, a valid instant) lies
before its anchor (2025-01-06 09:00). -/
def c4row : Row :=
  { baseRow with
    rrule := some "FREQ=WEEKLY"
    rrule_until := some (.ok ⟨daysFromCivil 2025 1 1 * 86400, some 0⟩) }

/-- C4 counterexample: with a valid explicit until lying before the anchor,
the resolved termination bound is that until instant itself — not the default
global horizon the claim promises — and the row expands to zero occurrences
instead of occurrences up to the horizon. -/
theorem c4_counterexample :
    resolveUntilField c4row.rrule_until = ⟨daysFromCivil 2025 1 1 * 86400, some 0⟩ ∧
    daysFromCivil 2025 1 1 * 86400 < daysFromCivil 2025 1 6 * 86400 + 9 * 3600 ∧
    resolveUntilField c4row.rrule_until ≠ DEFAULT_UNTIL ∧
    expandRecurringEvent c4row = .ok [] :=
  ⟨by decide, by decide, by decide, by decide⟩

/-- C4 (amended): the fall back to the default global horizon happens exactly
when the explicit `rrule_until` is falsy, fails to parse, or parses to NaT; a
field that parses to a valid instant is used as-is even when it lies before
the anchor, in which case enumeration yields zero occurrences rather than
falling back. -/
theorem c4_amended_until_fallback :
    (resolveUntilField none = DEFAULT_UNTIL ∧
      resolveUntilField (some .err) = DEFAULT_UNTIL ∧
      resolveUntilField (some .nat) = DEFAULT_UNTIL ∧
      ∀ d : DT, resolveUntilField (some (.ok d)) = d) ∧
    (∀ (row : Row) (c : ExpCtx), expandCtx row = .ok (some c) →
      c.untilW < c.startW → expandFromCtx row c = []) := by
  constructor
  · exact ⟨rfl, rfl, rfl, fun d => rfl⟩
  · intro row c hc hlt
    have hb := resolveTermination_le c.freq c.interval c.startW c.untilW c.count
    have hnil : genCandidates c.freq c.interval c.byday c.startW
        (resolveTermination c.freq c.interval c.startW c.untilW c.count) = [] :=
      genCandidates_eq_nil (by omega)
    unfold expandFromCtx truncCandidates
    split
    · rw [hnil]
      simp [pySliceTo]
    · rw [hnil]
      rfl

/-- The expansion context the enumerator computes for `c4row`. -/
def c4ctx : ExpCtx :=
  { freq := .weekly, interval := 1, byday := none,
    startW := daysFromCivil 2025 1 6 * 86400 + 9 * 3600, tz := some 0,
    untilW := daysFromCivil 2025 1 1 * 86400, count := none,
    duration := 3600, exDays := [] }

theorem c4_amended_until_fallback_witness :
    expandFromCtx c4row c4ctx = [] :=
  c4_amended_until_fallback.2 c4row c4ctx (by decide) (by decide)

end MSCal
namespace MSCal

/-! ### Claim C6 -/

/-- Scenario row for C6: the baseline weekly COUNT=3 series with the middle
occurrence date 2025-01-13 excluded. -/
def c6row : Row :=
  { baseRow with
    rrule_ex_date := some [⟨"2025-01-13", .ok ⟨daysFromCivil 2025 1 13 * 86400, none⟩⟩] }

/-- The expansion context the enumerator computes for `c6row`. -/
def c6ctx : ExpCtx :=
  { freq := .weekly, interval := 1, byday := none,
    startW := daysFromCivil 2025 1 6 * 86400 + 9 * 3600, tz := some 0,
    untilW := DEFAULT_UNTIL.wall, count := some 3,
    duration := 3600, exDays := [some (daysFromCivil 2025 1 13)] }

/-- C6: a candidate surviving COUNT truncation is dropped exactly when its
calendar date lies in the exclusion set (the filter runs after the
truncation, so exclusions are not backfilled); concretely, the baseline
weekly COUNT=3 series with 2025-01-13 excluded yields exactly the two
occurrences of 2025-01-06 and 2025-01-20. -/
theorem c6_exclusion_by_date_after_truncation :
    (∀ (row : Row) (c : ExpCtx), expandCtx row = .ok (some c) →
      expandFromCtx row c =
        ((truncCandidates c).filter
            (fun t => !(c.exDays.contains (some (dayOf t))))).map
          (fun t => OccOut.occ row ⟨t, c.tz⟩ ⟨t + c.duration, c.tz⟩)) ∧
    expandRecurringEvent c6row =
      .ok [OccOut.occ c6row ⟨daysFromCivil 2025 1 6 * 86400 + 9 * 3600, some 0⟩
             ⟨daysFromCivil 2025 1 6 * 86400 + 10 * 3600, some 0⟩,
           OccOut.occ c6row ⟨daysFromCivil 2025 1 20 * 86400 + 9 * 3600, some 0⟩
             ⟨daysFromCivil 2025 1 20 * 86400 + 10 * 3600, some 0⟩] := by
  constructor
  · intro row c _
    unfold expandFromCtx
    exact filterMap_ite_eq_filter_map _
  · decide

theorem c6_exclusion_by_date_after_truncation_witness :
    expandFromCtx c6row c6ctx =
      ((truncCandidates c6ctx).filter
          (fun t => !(c6ctx.exDays.contains (some (dayOf t))))).map
        (fun t => OccOut.occ c6row ⟨t, c6ctx.tz⟩ ⟨t + c6ctx.duration, c6ctx.tz⟩) :=
  c6_exclusion_by_date_after_truncation.1 c6row c6ctx (by decide)

end MSCal
namespace MSCal

/-! ### Claim C7 -/

/-- Inversion of a successful context computation: the anchor start and end
parsed, and the context's duration is their pandas difference. -/
theorem expandCtx_duration {row : Row} {c : ExpCtx}
    (h : expandCtx row = .ok (some c)) :
    ∃ s0 e0, pdToDatetimeStrict row.start_time = .ok s0 ∧
      pdToDatetimeStrict row.end_time = .ok e0 ∧
      pdSub e0 s0 = .ok c.duration := by
  unfold expandCtx at h
  split at h
  · exact absurd h (by simp)
  · split at h
    · exact absurd h (by simp)
    · obtain ⟨sp, hsp, h⟩ := exceptBind_ok h
      rcases sp with _ | params
      · exact absurd h (by simp)
      · unfold expandCtxBody at h
        obtain ⟨s0, hs0, h⟩ := exceptBind_ok h
        obtain ⟨e0, he0, h⟩ := exceptBind_ok h
        obtain ⟨dur, hdur, h⟩ := exceptBind_ok h
        obtain ⟨iv, hiv, h⟩ := exceptBind_ok h
        obtain ⟨byd, hbyd, h⟩ := exceptBind_ok h
        obtain ⟨cnt, hcnt, h⟩ := exceptBind_ok h
        obtain ⟨u0, hu0, h⟩ := exceptBind_ok h
        obtain ⟨exd, hexd, h⟩ := exceptBind_ok h
        refine ⟨s0, e0, hs0, he0, ?_⟩
        simp only [Except.ok.injEq, Option.some.injEq] at h
        rw [← h]
        exact hdur

end MSCal
namespace MSCal

/-- Duration behavior of the frame finalization step, per collected event. -/
theorem finalizeOcc_duration {x : OccOut} {o : FinalOcc} (h : finalizeOcc x = .ok o) :
    (∀ s e, o.start_time = .ts s → o.end_time = .ts e →
      ∃ d, pdSub e s = .ok d ∧ o.duration_hours = some ((d : ℚ) / 3600)) ∧
    ((o.start_time = .nat ∨ o.end_time = .nat) → o.duration_hours = none) := by
  cases x with
  | occ r s1 e1 =>
    unfold finalizeOcc at h
    obtain ⟨d, hd, h2⟩ := exceptBind_ok h
    simp only [pure, Except.pure, Except.ok.injEq] at h2
    subst h2
    constructor
    · intro s e hs he
      cases hs
      cases he
      exact ⟨d, hd, rfl⟩
    · rintro (hn | hn) <;> cases hn
  | raw r =>
    unfold finalizeOcc at h
    obtain ⟨sp, hsp, h⟩ := exceptBind_ok h
    obtain ⟨ep, hep, h⟩ := exceptBind_ok h
    cases sp with
    | nat =>
      cases ep with
      | nat =>
        simp only [pure, Except.pure, Except.ok.injEq] at h
        subst h
        exact ⟨fun s e hs he => (by cases hs), fun _ => rfl⟩
      | ts ed =>
        simp only [pure, Except.pure, Except.ok.injEq] at h
        subst h
        exact ⟨fun s e hs he => (by cases hs), fun _ => rfl⟩
    | ts sd =>
      cases ep with
      | nat =>
        simp only [pure, Except.pure, Except.ok.injEq] at h
        subst h
        exact ⟨fun s e hs he => (by cases he), fun _ => rfl⟩
      | ts ed =>
        obtain ⟨d, hd, h⟩ := exceptBind_ok h
        simp only [pure, Except.pure, Except.ok.injEq] at h
        subst h
        constructor
        · intro s e hs he
          cases hs
          cases he
          exact ⟨d, hd, rfl⟩
        · rintro (hn | hn) <;> cases hn

/-- C7: every occurrence the enumerator emits has the anchor's duration (its
pandas end-minus-start equals the anchor's end-minus-start), and the
normalizer computes each output record's `duration_hours` as the pandas
difference in seconds divided by 3600 (none exactly when an operand is
NaT). -/
theorem c7_duration_preserved_and_duration_hours :
    (∀ (row : Row) (c : ExpCtx) (s0 e0 : DT),
      expandCtx row = .ok (some c) →
      pdToDatetimeStrict row.start_time = .ok s0 →
      pdToDatetimeStrict row.end_time = .ok e0 →
      pdSub e0 s0 = .ok c.duration ∧
        ∀ o ∈ expandFromCtx row c, ∃ s e,
          o = OccOut.occ row s e ∧ pdSub e s = .ok c.duration) ∧
    (∀ (rows : List Row) (out : List FinalOcc),
      processCalendarEvents rows = .ok out → ∀ o ∈ out,
        (∀ s e, o.start_time = .ts s → o.end_time = .ts e →
          ∃ d, pdSub e s = .ok d ∧ o.duration_hours = some ((d : ℚ) / 3600)) ∧
        ((o.start_time = .nat ∨ o.end_time = .nat) → o.duration_hours = none)) := by
  constructor
  · intro row c s0 e0 hc hs he
    obtain ⟨s1, e1, hs1, he1, hd⟩ := expandCtx_duration hc
    have hss : s1 = s0 := by
      have := hs1.symm.trans hs
      simpa using this
    have hee : e1 = e0 := by
      have := he1.symm.trans he
      simpa using this
    subst hss hee
    refine ⟨hd, ?_⟩
    intro o ho
    unfold expandFromCtx at ho
    obtain ⟨t, ht, hf⟩ := List.mem_filterMap.mp ho
    split at hf
    · cases hf
    · injection hf with hf
      refine ⟨⟨t, c.tz⟩, ⟨t + c.duration, c.tz⟩, hf.symm, ?_⟩
      cases htz : c.tz <;> simp [pdSub, htz]
  · intro rows out h o ho
    unfold processCalendarEvents at h
    obtain ⟨expanded, hexp, h2⟩ := exceptBind_ok h
    obtain ⟨x, hx, hfx⟩ := mem_of_mapM_ok h2 o ho
    exact finalizeOcc_duration hfx

/-- The expansion context the enumerator computes for `baseRow`. -/
def baseCtx : ExpCtx :=
  { freq := .weekly, interval := 1, byday := none,
    startW := daysFromCivil 2025 1 6 * 86400 + 9 * 3600, tz := some 0,
    untilW := DEFAULT_UNTIL.wall, count := some 3,
    duration := 3600, exDays := [] }

theorem c7_duration_preserved_and_duration_hours_witness :
    pdSub ⟨daysFromCivil 2025 1 6 * 86400 + 10 * 3600, some 0⟩
        ⟨daysFromCivil 2025 1 6 * 86400 + 9 * 3600, some 0⟩ = .ok baseCtx.duration :=
  (c7_duration_preserved_and_duration_hours.1 baseRow baseCtx
      ⟨daysFromCivil 2025 1 6 * 86400 + 9 * 3600, some 0⟩
      ⟨daysFromCivil 2025 1 6 * 86400 + 10 * 3600, some 0⟩
      (by decide) (by decide) (by decide)).1

end MSCal
namespace MSCal

/-! ### Claim C1 -/

/-- Modelled from the spec wording of termination resolution: the instant of
the N-th occurrence computed by stepping from the anchor with the
frequency/interval/WEEKDAY rule (the weekday restriction included), realized
over a search window wide enough to contain the first `n` occurrences. -/
def specNthOccurrence (freq : Freq) (interval : Int) (byd : Option (List Int))
    (dtstart n : Int) : Option Int :=
  ((genCandidates freq interval byd dtstart
      (dtstart + nthWindowDays freq interval n * 86400)).take n.toNat).getLast?

/-- Concrete row for the C1 counterexample: anchored Monday 2025-01-06 09:00
UTC, BYDAY=WE (a weekday different from the anchor's), COUNT=2, and an
explicit until far in the future (2025-03-01). -/
def c1row : Row :=
  { baseRow with
    rrule := some "FREQ=WEEKLY;BYDAY=WE;COUNT=2"
    rrule_until := some (.ok ⟨daysFromCivil 2025 3 1 * 86400, some 0⟩) }

/-- C1 counterexample: the code resolves the COUNT bound from the
frequency/interval rule alone (no weekday restriction), giving 2025-01-13
09:00 here, while the N-th occurrence under the frequency/interval/weekday
rule is 2025-01-15 09:00; the resolved bound is NOT the minimum of the
weekday-rule instant and the until instant, and the row consequently expands
to a single occurrence (2025-01-08) although COUNT is 2 and two weekday-rule
occurrences lie before the explicit until. -/
theorem c1_counterexample :
    resolveTermination .weekly 1 (daysFromCivil 2025 1 6 * 86400 + 9 * 3600)
        (daysFromCivil 2025 3 1 * 86400) (some 2) =
      daysFromCivil 2025 1 13 * 86400 + 9 * 3600 ∧
    specNthOccurrence .weekly 1 (some [2])
        (daysFromCivil 2025 1 6 * 86400 + 9 * 3600) 2 =
      some (daysFromCivil 2025 1 15 * 86400 + 9 * 3600) ∧
    resolveTermination .weekly 1 (daysFromCivil 2025 1 6 * 86400 + 9 * 3600)
        (daysFromCivil 2025 3 1 * 86400) (some 2) ≠
      min (daysFromCivil 2025 1 15 * 86400 + 9 * 3600)
        (daysFromCivil 2025 3 1 * 86400) ∧
    expandRecurringEvent c1row =
      .ok [OccOut.occ c1row ⟨daysFromCivil 2025 1 8 * 86400 + 9 * 3600, some 0⟩
             ⟨daysFromCivil 2025 1 8 * 86400 + 10 * 3600, some 0⟩] :=
  ⟨by decide, by decide, by decide, by decide⟩

/-- C1 (amended): when COUNT is present the enumerator's termination bound is
the minimum of the until instant and the instant at which COUNT occurrences
of the frequency/interval rule — WITHOUT the weekday restriction — would end;
and for every row whose context carries a nonnegative COUNT, at most COUNT
occurrences are emitted, each starting at or before the resolved termination
bound. -/
theorem c1_count_and_until_bounds (row : Row) (c : ExpCtx) (n : Int)
    (_hc : expandCtx row = .ok (some c)) (hn : c.count = some n) (hnn : 0 ≤ n) :
    (∀ ce, (firstNOccurrencesNoByday c.freq c.interval c.startW n).getLast? = some ce →
      resolveTermination c.freq c.interval c.startW c.untilW c.count = min ce c.untilW) ∧
    (expandFromCtx row c).length ≤ n.toNat ∧
    ∀ o ∈ expandFromCtx row c, ∃ s e,
      o = OccOut.occ row s e ∧
        s.wall ≤ resolveTermination c.freq c.interval c.startW c.untilW c.count := by
  have htr : truncCandidates c =
      pySliceTo n (genCandidates c.freq c.interval c.byday c.startW
        (resolveTermination c.freq c.interval c.startW c.untilW c.count)) := by
    unfold truncCandidates
    split
    · rename_i m hm
      rw [hn] at hm
      cases hm
      rfl
    · rename_i hm
      rw [hn] at hm
      cases hm
  refine ⟨?_, ?_, ?_⟩
  · intro ce hce
    simp [resolveTermination, hn, hce]
  · unfold expandFromCtx
    rw [htr]
    calc (List.filterMap _ _).length
        ≤ (pySliceTo n (genCandidates c.freq c.interval c.byday c.startW
            (resolveTermination c.freq c.interval c.startW c.untilW c.count))).length :=
          List.length_filterMap_le _ _
      _ ≤ n.toNat := pySliceTo_length_le hnn _
  · intro o ho
    unfold expandFromCtx at ho
    obtain ⟨t, ht, hf⟩ := List.mem_filterMap.mp ho
    split at hf
    · cases hf
    · injection hf with hf
      exact ⟨⟨t, c.tz⟩, ⟨t + c.duration, c.tz⟩, hf.symm, (mem_truncCandidates ht).2⟩

/-- The expansion context the enumerator computes for `c1row`. -/
def c1ctx : ExpCtx :=
  { freq := .weekly, interval := 1, byday := some [2],
    startW := daysFromCivil 2025 1 6 * 86400 + 9 * 3600, tz := some 0,
    untilW := daysFromCivil 2025 3 1 * 86400, count := some 2,
    duration := 3600, exDays := [] }

theorem c1_count_and_until_bounds_witness :
    (expandFromCtx c1row c1ctx).length ≤ (2 : Int).toNat :=
  (c1_count_and_until_bounds c1row c1ctx 2 (by decide) (by decide) (by decide)).2.1

end MSCal
namespace MSCal

/-! ### Claim C9 -/

/-- C9: the identity key is a deterministic function of only the title, the
start field, the raw rrule value, and the exclusion list — two rows that
agree on these four fields (in particular rows differing only in email or id)
produce identical keys — and every produced key is the bar-joined
concatenation of the nonempty components among series, topic, zero-padded
HH:MM slot, occurrence date, raw rrule string, and sorted exclusion-date
list. -/
theorem c9_identity_key_determinism :
    (∀ r1 r2 : Row, r1.title = r2.title → r1.start_time = r2.start_time →
      r1.rrule = r2.rrule → r1.rrule_ex_date = r2.rrule_ex_date →
      getEventKey r1 = getEventKey r2) ∧
    (∀ (r : Row) (st : DT), pdToDatetimeStrict r.start_time = .ok st →
      getEventKey r = .ok (joinSep "|"
        (([(extractSeriesAndTopic (pyTitleFix r.title)).1,
           (extractSeriesAndTopic (pyTitleFix r.title)).2,
           getTimeSlotKey st, dateString st, pyStrOpt r.rrule,
           exListStr r.rrule_ex_date]).filter (fun x => x ≠ "")))) := by
  constructor
  · intro r1 r2 ht hs hr he
    unfold getEventKey
    rw [ht, hs, hr, he]
  · intro r st hst
    unfold getEventKey
    rw [hst]
    rfl

/-- A row identical to the baseline except for owner identity fields. -/
def c9row : Row := { baseRow with email := "bob@example.com", id := "evt-9" }

theorem c9_identity_key_determinism_witness :
    getEventKey baseRow = getEventKey c9row :=
  c9_identity_key_determinism.1 baseRow c9row rfl rfl rfl rfl

/-! ### Claim C2 -/

theorem splitOnceL_single_none {c : Char} :
    ∀ {l : List Char}, c ∉ l → ∀ acc, splitOnceL [c] acc l = none := by
  intro l
  induction l with
  | nil => intro _ acc; rfl
  | cons a as ih =>
    intro h acc
    unfold splitOnceL
    rw [if_neg]
    · exact ih (fun hm => h (List.mem_cons_of_mem _ hm)) _
    · have hca : c ≠ a := fun hh => h (hh ▸ List.mem_cons_self a as)
      simp [List.isPrefixOf, hca]

theorem parsePart_bad {acc : Params} {part : String}
    (h1 : ':' ∉ part.toList) (h2 : '=' ∉ part.toList) :
    parsePart acc part = .error .valueError := by
  have hs : splitOnce "=" part = none := by
    unfold splitOnce
    exact splitOnceL_single_none h2 []
  unfold parsePart
  rw [if_neg, hs]
  simpa using h1

theorem parsePart_error_only {acc : Params} {p : String} {e : PyErr}
    (h : parsePart acc p = .error e) : e = .valueError := by
  unfold parsePart at h
  split at h <;> split at h <;> simp_all

theorem foldlM_parsePart_bad {part : String} (h1 : ':' ∉ part.toList)
    (h2 : '=' ∉ part.toList) :
    ∀ (parts : List String) (acc : Params), part ∈ parts →
      parts.foldlM parsePart acc = .error .valueError := by
  intro parts
  induction parts with
  | nil =>
    intro acc h
    cases h
  | cons p ps ih =>
    intro acc hmem
    rw [List.foldlM_cons]
    rcases List.mem_cons.mp hmem with hh | hh
    · subst hh
      rw [parsePart_bad h1 h2]
      rfl
    · cases hpp : parsePart acc p with
      | error e =>
        rw [parsePart_error_only hpp]
        rfl
      | ok acc2 =>
        exact ih acc2 hh

theorem expand_error_of_parse_error {row : Row} {s : String} {e : PyErr}
    (hs : row.rrule = some s) (hne : s ≠ "") (hp : parseRrule (some s) = .error e) :
    expandRecurringEvent row = .error e := by
  have h1 : expandCtx row = .error e := by
    unfold expandCtx
    split
    · rename_i heq
      rw [hs] at heq
      cases heq
    · rename_i rs heq
      rw [hs] at heq
      injection heq with heq
      subst heq
      rw [if_neg hne, hs, hp]
      rfl
  unfold expandRecurringEvent
  rw [h1]
  rfl

/-- C2 (amended): a malformed descriptor is a hard parse error, not a soft
one: when any `;`-delimited part of the processed descriptor string contains
neither '=' nor ':', the key=value loop raises ValueError, and a parse error
propagates out of the row's expansion to the caller — there is no degraded
single occurrence and no diagnostic-and-continue (a batch holding such a row
aborts, as the counterexample shows concretely). -/
theorem c2_malformed_descriptor_raises :
    (∀ (part : String) (parts : List String) (acc : Params),
      ':' ∉ part.toList → '=' ∉ part.toList → part ∈ parts →
      parts.foldlM parsePart acc = .error .valueError) ∧
    (∀ (row : Row) (s : String) (e : PyErr),
      row.rrule = some s → s ≠ "" → parseRrule (some s) = .error e →
      expandRecurringEvent row = .error e) :=
  ⟨fun _ parts acc h1 h2 hmem => foldlM_parsePart_bad h1 h2 parts acc hmem,
   fun _ _ _ hs hne hp => expand_error_of_parse_error hs hne hp⟩

/-- A row whose rrule holds a part ("FOO") with neither '=' nor ':'. -/
def c2badRow : Row := { baseRow with rrule := some "FREQ=WEEKLY;FOO" }

/-- A healthy non-recurring row processed after the malformed one. -/
def c2goodRow : Row :=
  { baseRow with id := "evt-2", recurring_group_id := none, rrule := none }

/-- C2 counterexample: a batch holding a row whose descriptor has a part with
neither '=' nor ':' aborts the whole run with the raised ValueError — the row
does not degrade to a single occurrence, no diagnostic-and-continue happens,
and the healthy second row's occurrence is never emitted. -/
theorem c2_counterexample :
    parseRrule c2badRow.rrule = .error .valueError ∧
    expandRecurringEvent c2badRow = .error .valueError ∧
    processCalendarEvents [c2badRow, c2goodRow] = .error .valueError :=
  ⟨by decide, by decide, by decide⟩

theorem c2_malformed_descriptor_raises_witness :
    ["FREQ=WEEKLY", "FOO"].foldlM parsePart ([] : Params) = .error .valueError ∧
    expandRecurringEvent c2badRow = .error PyErr.valueError :=
  ⟨c2_malformed_descriptor_raises.1 "FOO" ["FREQ=WEEKLY", "FOO"] []
      (by decide) (by decide) (by decide),
   c2_malformed_descriptor_raises.2 c2badRow "FREQ=WEEKLY;FOO" .valueError
      (by decide) (by decide) (by decide)⟩

end MSCal
namespace MSCal

/-! ### Claim C3 -/

/-- Whether an exceptional computation completed without raising. -/
def exceptIsOk {α : Type _} : Except PyErr α → Bool
  | .ok _ => true
  | .error _ => false

/-- A group fold containing a row whose expansion raises never completes. -/
theorem expandGroupStep_fold_error {l : List Row} {r : Row} {e : PyErr}
    (hr : r ∈ l) (he : expandRecurringEvent r = .error e) :
    ∀ acc : List OccOut, exceptIsOk (l.foldlM expandGroupStep acc) = false := by
  induction l with
  | nil => cases hr
  | cons p ps ih =>
    intro acc
    rw [List.foldlM_cons]
    rcases List.mem_cons.mp hr with hh | hh
    · subst hh
      unfold expandGroupStep
      rw [he]
      rfl
    · cases hex : expandGroupStep acc p with
      | error e2 => rfl
      | ok acc2 => exact ih hh acc2

/-- A fold over the group keys never completes when some listed group holds a
row whose expansion raises. -/
theorem expandGroupsStep_fold_error {recurring : List Row} {r : Row} {g : String}
    {e : PyErr} (hrg : r.recurring_group_id = some g) (hr : r ∈ recurring)
    (he : expandRecurringEvent r = .error e) :
    ∀ (gids : List String) (acc : List OccOut), g ∈ gids →
      exceptIsOk (gids.foldlM (expandGroupsStep recurring) acc) = false := by
  intro gids
  induction gids with
  | nil =>
    intro acc h
    cases h
  | cons p ps ih =>
    intro acc hmem
    rw [List.foldlM_cons]
    rcases List.mem_cons.mp hmem with hh | hh
    · subst hh
      have hin : r ∈ recurring.filter (fun row => row.recurring_group_id = some g) :=
        List.mem_filter.mpr ⟨hr, by simp [hrg]⟩
      have hstep := expandGroupStep_fold_error hin he acc
      cases hgf : expandGroupsStep recurring acc g with
      | error e2 => rfl
      | ok acc2 =>
        unfold expandGroupsStep at hgf
        rw [hgf] at hstep
        cases hstep
    · cases hgs : expandGroupsStep recurring acc p with
      | error e2 => rfl
      | ok acc2 => exact ih acc2 hh

/-- C3 (amended): there is no per-row exception handling in the batch
pipeline: a live, recurrence-grouped row whose expansion raises makes the
whole `process_calendar_events` run raise — the row is not skipped, no
warning-and-continue happens, and the remaining rows are not processed. -/
theorem c3_row_exception_aborts_batch (rows : List Row) (r : Row) (e : PyErr)
    (hr : r ∈ rows) (hdel : r.deleted_at = none) (hgid : r.recurring_group_id.isSome)
    (he : expandRecurringEvent r = .error e) :
    exceptIsOk (processCalendarEvents rows) = false := by
  obtain ⟨g, hg⟩ := Option.isSome_iff_exists.mp hgid
  have hrec : r ∈ recurringRows rows := by
    unfold recurringRows liveRows
    exact List.mem_filter.mpr
      ⟨List.mem_filter.mpr ⟨hr, by simp [hdel]⟩, by simp [hg]⟩
  have hgk : g ∈ groupKeys (recurringRows rows) := mem_groupKeys hrec hg
  have hfold := expandGroupsStep_fold_error hg hrec he (groupKeys (recurringRows rows)) [] hgk
  unfold processCalendarEvents
  cases hf : (groupKeys (recurringRows rows)).foldlM
      (expandGroupsStep (recurringRows rows)) ([] : List OccOut) with
  | error e2 => rfl
  | ok acc =>
    rw [hf] at hfold
    cases hfold

/-- A recurring row whose start field does not parse (pandas raises). -/
def c3badRow : Row := { baseRow with id := "evt-3", start_time := .err }

/-- A healthy non-recurring row in the same batch. -/
def c3goodRow : Row :=
  { baseRow with id := "evt-4", recurring_group_id := none, rrule := none }

/-- C3 counterexample: a batch holding a recurring row with a malformed start
date aborts with the raised error instead of skipping the row — the healthy
second row's occurrence is never emitted. -/
theorem c3_counterexample :
    expandRecurringEvent c3badRow = .error .valueError ∧
    processCalendarEvents [c3badRow, c3goodRow] = .error .valueError :=
  ⟨by decide, by decide⟩

theorem c3_row_exception_aborts_batch_witness :
    exceptIsOk (processCalendarEvents [c3badRow, c3goodRow]) = false :=
  c3_row_exception_aborts_batch [c3badRow, c3goodRow] c3badRow .valueError
    (by decide) (by decide) (by decide) (by decide)

end MSCal
namespace MSCal

/-! ### Claim C10 -/

theorem dictGet_insert_self (k v : String) (d : Params) :
    dictGet (dictInsert k v d) k = some v := by
  unfold dictInsert
  induction d with
  | nil => simp [dictGet]
  | cons p ps ih =>
    by_cases h : p.1 = k
    · simpa [dictRemove, h] using ih
    · simpa [dictRemove, dictGet, h] using ih

theorem dictGet_insert_ne {k k2 : String} (h : k2 ≠ k) (v : String) (d : Params) :
    dictGet (dictInsert k v d) k2 = dictGet d k2 := by
  unfold dictInsert
  induction d with
  | nil =>
    simp only [dictRemove, List.nil_append, dictGet]
    exact if_neg (fun hh => h hh.symm)
  | cons p ps ih =>
    by_cases hp : p.1 = k
    · have hp2 : p.1 ≠ k2 := fun hh => h (hp ▸ hh.symm)
      simp only [dictRemove, if_pos hp, dictGet, if_neg hp2]
      exact ih
    · simp only [dictRemove, if_neg hp, List.cons_append, dictGet]
      by_cases hq : p.1 = k2
      · simp [hq]
      · simp only [if_neg hq]
        exact ih

theorem rowInterval_insert_dtstart (v : String) (ps : Params) :
    rowInterval (dictInsert "DTSTART" v ps) = rowInterval ps := by
  unfold rowInterval
  rw [dictGet_insert_ne (by decide) v ps]

theorem rowByday_insert_dtstart (v : String) (ps : Params) :
    rowByday (dictInsert "DTSTART" v ps) = rowByday ps := by
  unfold rowByday
  rw [dictGet_insert_ne (by decide) v ps]

theorem rowCount_insert_dtstart (v : String) (ps : Params) :
    rowCount (dictInsert "DTSTART" v ps) = rowCount ps := by
  unfold rowCount
  rw [dictGet_insert_ne (by decide) v ps]

theorem expandCtxBody_insert_dtstart (row : Row) (v : String) (ps : Params) :
    expandCtxBody row (dictInsert "DTSTART" v ps) = expandCtxBody row ps := by
  unfold expandCtxBody
  rw [rowInterval_insert_dtstart, rowByday_insert_dtstart,
    rowCount_insert_dtstart, dictGet_insert_ne (by decide) v ps]

theorem expandCtxBody_rrule_indep {r1 r2 : Row} (ps : Params)
    (h1 : r1.start_time = r2.start_time) (h2 : r1.end_time = r2.end_time)
    (h3 : r1.rrule_until = r2.rrule_until) (h4 : r1.rrule_ex_date = r2.rrule_ex_date) :
    expandCtxBody r1 ps = expandCtxBody r2 ps := by
  unfold expandCtxBody
  rw [h1, h2, h3, h4]

theorem expandCtx_of_parse {row : Row} {s : String} {ps : Params}
    (hs : row.rrule = some s) (hne : s ≠ "")
    (hp : parseRrule (some s) = .ok (some ps)) :
    expandCtx row = expandCtxBody row ps := by
  unfold expandCtx
  split
  · rename_i heq
    rw [hs] at heq
    cases heq
  · rename_i rs heq
    rw [hs] at heq
    injection heq with heq
    subst heq
    rw [if_neg hne, hs, hp]
    rfl

theorem parseRruleTail_dtstart {s1 dline rest : String}
    (hsw : pyStartsWith "DTSTART:" s1 = true)
    (hsplit : splitOnce "\nRRULE:" s1 = some (dline, rest))
    (hacc : pdAcceptsInstant
      (String.mk (pyReplaceDel "DTSTART:".toList dline.toList)) = true) :
    parseRruleTail s1 =
      ((pySplitChar ';' rest).foldlM parsePart ([] : Params)).map
        (fun params => some (dictInsert "DTSTART"
          (String.mk (pyReplaceDel "DTSTART:".toList dline.toList)) params)) := by
  unfold parseRruleTail
  rw [if_pos hsw, hsplit]
  simp only [if_pos hacc]
  rfl

/-- The occurrence instants of one expansion result (none for the raw
single-occurrence passthrough, whose start/end are the row's own). -/
def occTimes : OccOut → Option (DT × DT)
  | .raw _ => none
  | .occ _ s e => some (s, e)

/-- The emitted instants depend only on the context, not on the carried row
payload. -/
theorem occTimes_expandFromCtx (rowA rowB : Row) (c : ExpCtx) :
    List.map occTimes (expandFromCtx rowA c) = List.map occTimes (expandFromCtx rowB c) := by
  unfold expandFromCtx
  rw [List.map_filterMap, List.map_filterMap]
  apply congrArg (fun f => List.filterMap f (truncCandidates c))
  funext t
  split <;> rfl

/-- The composite descriptor string of a DTSTART-headed rule. -/
def dtstartRrule (d rest : String) : String :=
  "DTSTART:" ++ d ++ "\nRRULE:" ++ rest

/-- C10: for a descriptor of the form DTSTART-line + RRULE-line (the embedded
instant parseable, the separator occurring at the line boundary, and the
surrounding strip a no-op), the embedded instant is stored in the parsed
descriptor under the DTSTART key, but it never anchors enumeration: two rows
identical except for the embedded DTSTART value emit the same occurrence
start/end instants (candidate generation anchors at the row's own start
time; the occurrence records differ only in the verbatim descriptor string
each row carries). -/
theorem c10_embedded_dtstart_never_anchors (row : Row) (d1 d2 rest : String)
    (hne1 : dtstartRrule d1 rest ≠ "")
    (hne2 : dtstartRrule d2 rest ≠ "")
    (hstrip1 : pyStripChar '"' (pyStrip (dtstartRrule d1 rest)) = dtstartRrule d1 rest)
    (hstrip2 : pyStripChar '"' (pyStrip (dtstartRrule d2 rest)) = dtstartRrule d2 rest)
    (hsw1 : pyStartsWith "DTSTART:" (dtstartRrule d1 rest) = true)
    (hsw2 : pyStartsWith "DTSTART:" (dtstartRrule d2 rest) = true)
    (hsplit1 : splitOnce "\nRRULE:" (dtstartRrule d1 rest) = some ("DTSTART:" ++ d1, rest))
    (hsplit2 : splitOnce "\nRRULE:" (dtstartRrule d2 rest) = some ("DTSTART:" ++ d2, rest))
    (hacc1 : pdAcceptsInstant
      (String.mk (pyReplaceDel "DTSTART:".toList ("DTSTART:" ++ d1).toList)) = true)
    (hacc2 : pdAcceptsInstant
      (String.mk (pyReplaceDel "DTSTART:".toList ("DTSTART:" ++ d2).toList)) = true) :
    (∀ p, parseRrule (some (dtstartRrule d1 rest)) = .ok (some p) →
      dictGet p "DTSTART" =
        some (String.mk (pyReplaceDel "DTSTART:".toList ("DTSTART:" ++ d1).toList))) ∧
    Except.map (List.map occTimes)
        (expandRecurringEvent { row with rrule := some (dtstartRrule d1 rest) }) =
      Except.map (List.map occTimes)
        (expandRecurringEvent { row with rrule := some (dtstartRrule d2 rest) }) := by
  have h1 : parseRrule (some (dtstartRrule d1 rest)) =
      ((pySplitChar ';' rest).foldlM parsePart ([] : Params)).map
        (fun params => some (dictInsert "DTSTART"
          (String.mk (pyReplaceDel "DTSTART:".toList ("DTSTART:" ++ d1).toList)) params)) := by
    simp only [parseRrule]
    rw [if_neg hne1, hstrip1]
    exact parseRruleTail_dtstart hsw1 hsplit1 hacc1
  have h2 : parseRrule (some (dtstartRrule d2 rest)) =
      ((pySplitChar ';' rest).foldlM parsePart ([] : Params)).map
        (fun params => some (dictInsert "DTSTART"
          (String.mk (pyReplaceDel "DTSTART:".toList ("DTSTART:" ++ d2).toList)) params)) := by
    simp only [parseRrule]
    rw [if_neg hne2, hstrip2]
    exact parseRruleTail_dtstart hsw2 hsplit2 hacc2
  constructor
  · intro p hp
    rw [h1] at hp
    cases hP : (pySplitChar ';' rest).foldlM parsePart ([] : Params) with
    | error e =>
      rw [hP] at hp
      cases hp
    | ok params =>
      rw [hP] at hp
      injection hp with hp
      injection hp with hp
      rw [← hp]
      exact dictGet_insert_self _ _ _
  · cases hP : (pySplitChar ';' rest).foldlM parsePart ([] : Params) with
    | error e =>
      have e1 : parseRrule (some (dtstartRrule d1 rest)) = .error e := by
        rw [h1, hP]
        rfl
      have e2 : parseRrule (some (dtstartRrule d2 rest)) = .error e := by
        rw [h2, hP]
        rfl
      rw [expand_error_of_parse_error rfl hne1 e1,
        expand_error_of_parse_error rfl hne2 e2]
    | ok params =>
      have p1 : parseRrule (some (dtstartRrule d1 rest)) = .ok (some (dictInsert "DTSTART"
          (String.mk (pyReplaceDel "DTSTART:".toList ("DTSTART:" ++ d1).toList)) params)) := by
        rw [h1, hP]
        rfl
      have p2 : parseRrule (some (dtstartRrule d2 rest)) = .ok (some (dictInsert "DTSTART"
          (String.mk (pyReplaceDel "DTSTART:".toList ("DTSTART:" ++ d2).toList)) params)) := by
        rw [h2, hP]
        rfl
      have hctx : expandCtx { row with rrule := some (dtstartRrule d1 rest) } =
          expandCtxBody { row with rrule := some (dtstartRrule d2 rest) } params := by
        rw [expandCtx_of_parse rfl hne1 p1, expandCtxBody_insert_dtstart]
        exact @expandCtxBody_rrule_indep { row with rrule := some (dtstartRrule d1 rest) }
          { row with rrule := some (dtstartRrule d2 rest) } params rfl rfl rfl rfl
      have hctx2 : expandCtx { row with rrule := some (dtstartRrule d2 rest) } =
          expandCtxBody { row with rrule := some (dtstartRrule d2 rest) } params := by
        rw [expandCtx_of_parse rfl hne2 p2, expandCtxBody_insert_dtstart]
      unfold expandRecurringEvent
      rw [hctx, hctx2]
      cases hE : expandCtxBody { row with rrule := some (dtstartRrule d2 rest) } params with
      | error e => rfl
      | ok v =>
        cases v with
        | none => rfl
        | some c =>
          simp only [Bind.bind, Except.bind, pure, Except.pure, Except.map]
          exact congrArg Except.ok (occTimes_expandFromCtx _ _ c)

theorem c10_embedded_dtstart_never_anchors_witness :
    Except.map (List.map occTimes) (expandRecurringEvent
        { baseRow with rrule := some (dtstartRrule "20250106T090000Z" "FREQ=WEEKLY;COUNT=2") }) =
      Except.map (List.map occTimes) (expandRecurringEvent
        { baseRow with rrule := some (dtstartRrule "20250201T090000Z" "FREQ=WEEKLY;COUNT=2") }) :=
  (c10_embedded_dtstart_never_anchors baseRow "20250106T090000Z" "20250201T090000Z"
      "FREQ=WEEKLY;COUNT=2" (by decide) (by decide) (by decide) (by decide)
      (by decide) (by decide) (by decide) (by decide) (by decide) (by decide)).2

end MSCal
